import Mathlib

/-!
Verification of the pysachi scoped tree-walking engine (src/pysachi):
the scope stack (stack.py), the report model (report.py), the analyzer /
dispatcher (analyzer.py), the top-level `walk` entry (sachi.py), the shipped
function checker (checkers/function.py) and the clamp helpers
(rules/utils.py).  Python's mutable state is embedded as explicit state
passing over an `AState` record; Python exceptions are embedded as an
`Except` result whose error also carries the state at raise time (the
analyzer object survives a raised exception).
-/

set_option linter.unusedVariables false
set_option linter.unnecessarySimpa false

namespace PySachi

/-- Python exceptions that the embedded code can raise.  `emptyStackError`
stands for the dedicated stack-underflow error named by the spec; the code
under src/pysachi never defines nor raises such a class. -/
inductive PyErr where
  | typeError
  | attributeError
  | indexError
  | zeroDivisionError
  | emptyStackError
  | checkerError (msg : String)
  deriving DecidableEq, Repr

/-! ### stack.py -/

/-- stack.py class Stack.  The Python list `_stack` keeps the outermost
scope at index 0; `_push` appends at the end, `pop` removes the last
element. -/
structure Stack (α : Type) where
  _stack : List α
  deriving DecidableEq, Repr

/-- Stack.depth: `len(self._stack)`. -/
def Stack.depth {α} (s : Stack α) : Nat := s._stack.length

/-- Python list subscription `l[i]`: a negative index wraps around to
`len(l) + i`; an effective index out of range raises IndexError. -/
def pyGetItem {α} (l : List α) (i : Int) : Except PyErr α :=
  let j : Int := if i < 0 then (l.length : Int) + i else i
  if h : 0 ≤ j ∧ j.toNat < l.length then .ok (l.get ⟨j.toNat, h.2⟩)
  else .error .indexError

/-- Stack.at: `self._stack[index] if self.depth > index else None`.
Named `atIndex` because `at` is reserved in Lean. -/
def Stack.atIndex {α} (s : Stack α) (index : Int) : Except PyErr (Option α) :=
  if (s.depth : Int) > index then (pyGetItem s._stack index).map some
  else .ok none

/-- Stack.parent: `self.at(self.depth - 2)` (integer arithmetic, so the
index can be negative and wrap around). -/
def Stack.parent {α} (s : Stack α) : Except PyErr (Option α) :=
  s.atIndex ((s.depth : Int) - 2)

/-- Stack._push: `self._stack.append(item)`. -/
def Stack._push {α} (s : Stack α) (item : α) : Stack α := ⟨s._stack ++ [item]⟩

/-- Stack.pop: `return self._stack.pop()`; popping an empty Python list
raises IndexError (there is no dedicated underflow error in the code). -/
def Stack.pop {α} (s : Stack α) : Except PyErr (α × Stack α) :=
  match s._stack.getLast? with
  | some x => .ok (x, ⟨s._stack.dropLast⟩)
  | none => .error .indexError

/-- Stack.peek: `self._stack[self.depth - 1] if self.depth > 0 else None`. -/
def Stack.peek {α} (s : Stack α) : Option α :=
  if s.depth > 0 then s._stack.get? (s.depth - 1) else none

/-! ### report.py -/

/-- report.py ERule. -/
inductive ERule where
  | R1001
  | R1002
  deriving DecidableEq, Repr

/-- report.py CheckReport: rule, value, goal and the `extra` mapping from
string keys to numbers. -/
structure CheckReport where
  rule : ERule
  value : ℚ
  goal : ℚ
  extra : List (String × ℚ)
  deriving DecidableEq, Repr

/-- report.py _BaseReport and its three variants ASTReport / ClassReport /
FunctionReport: `classes`, `functions`, `checks` and the `calls` counter.
`lineno` is `none` for the root ASTReport and `some n` for class and
function reports. -/
inductive Rep where
  | mk (lineno : Option Nat) (classes : List Rep) (functions : List Rep)
      (checks : List CheckReport) (calls : Nat)

def Rep.lineno : Rep → Option Nat
  | .mk l _ _ _ _ => l

def Rep.classes : Rep → List Rep
  | .mk _ c _ _ _ => c

def Rep.functions : Rep → List Rep
  | .mk _ _ f _ _ => f

def Rep.checks : Rep → List CheckReport
  | .mk _ _ _ ch _ => ch

def Rep.calls : Rep → Nat
  | .mk _ _ _ _ k => k

/-- `ASTReport()`: a fresh empty root report. -/
def emptyRep : Rep := ⟨none, [], [], [], 0⟩

/-- `ClassReport(lineno)` / `FunctionReport(lineno)`: a fresh empty scoped
report. -/
def freshRep (lineno : Nat) : Rep := ⟨some lineno, [], [], [], 0⟩

/-- `report.classes.append(child)` seen at scope close (see `dispatchNode`
for why attachment happens at pop time in this functional model). -/
def Rep.addClass (r : Rep) (child : Rep) : Rep :=
  ⟨r.lineno, r.classes ++ [child], r.functions, r.checks, r.calls⟩

/-- `report.functions.append(child)`. -/
def Rep.addFunction (r : Rep) (child : Rep) : Rep :=
  ⟨r.lineno, r.classes, r.functions ++ [child], r.checks, r.calls⟩

/-- `report.checks.append(c)`. -/
def Rep.addCheck (r : Rep) (c : CheckReport) : Rep :=
  ⟨r.lineno, r.classes, r.functions, r.checks ++ [c], r.calls⟩

/-- `report.calls += 1`. -/
def Rep.incCalls (r : Rep) : Rep :=
  ⟨r.lineno, r.classes, r.functions, r.checks, r.calls + 1⟩

/-! ### rules/utils.py -/

/-- rules/utils.py `_clamp`: `max(min(v, b), a)`. -/
def _clamp (v a b : ℚ) : ℚ := max (min v b) a

/-- rules/utils.py `_clamp01`: `_clamp(v, 0, 1)`. -/
def _clamp01 (v : ℚ) : ℚ := _clamp v 0 1

/-- checkers/function.py `MAX_CALLS = 5`. -/
def MAX_CALLS : Int := 5

/-- Modelled from the spec: the module `pysachi/rules/function.py` is not
under src/ (only its caller `checkers/function.py` and its clamp helpers
`rules/utils.py` are), so the reference rule is taken from the spec's
words: "Pure function `responsibilities(callCount: integer, maxCalls:
integer) -> real in [0,1]`: `clamp(1 - callCount / maxCalls, 0, 1)`", with
true (Python `/`) division embedded over ℚ, and "division by a zero
`maxCalls`" raising, as spec section 7 records (CheckerRuntimeError;
ZeroDivisionError in Python). -/
def responsibilities (callCount maxCalls : Int) : Except PyErr ℚ :=
  if maxCalls = 0 then .error .zeroDivisionError
  else .ok (_clamp01 (1 - (callCount : ℚ) / (maxCalls : ℚ)))

/-! ### The analyzed tree

Parsed Python trees (`ast.parse`) have a Module root whose descendants are
statements and expressions; a Module node never occurs nested.  The node
kinds the analyzer dispatches on are kept, every other node kind is
`other` (the `ast.NodeVisitor` generic fallthrough); `children` is the
node's full child-node list as `ast.iter_child_nodes` yields it. -/

inductive PyNode where
  | classDef (lineno : Nat) (body : List PyNode)
  | functionDef (lineno : Nat) (body : List PyNode)
  | call (children : List PyNode)
  | other (children : List PyNode)

/-- A parsed tree root: `ast.Module`. -/
structure PyModule where
  body : List PyNode

/-! ### analyzer.py — DefaultAnalyzer

The analyzer object is mutable Python state: its `Stack` base (`_stack`,
innermost scope last), `_report`, `_is_root`.  Here that state is the
record `AState`, threaded explicitly; the open-scope stack is kept
innermost FIRST (the mirror image of stack.py's list — push/pop/peek act
on the head here where the Python code acts on the end), which changes no
observable of push/pop/peek/depth.  The extra `trace` field is never read
nor written by the engine; it exists so that checker hooks (arbitrary
state transformers) have an observable channel in which theorems can
record their invocation order.  A raised Python exception leaves the
analyzer object alive in its current state, so errors carry the state at
raise time. -/

structure AState where
  stack : List Rep
  report : Option Rep
  isRoot : Bool
  trace : List String

/-- Results of embedded Python code: either a value or a raised exception
together with the analyzer state at raise time. -/
abbrev M (α : Type) := Except (PyErr × AState) α

/-- A context returned by a checker hook: `enter`/`exit` are present
exactly when the Python object has `__enter__`/`__exit__`. -/
structure Ctx where
  enter : Option (AState → M AState)
  exit : Option (AState → M AState)

/-- A checker hook already bound to its node argument:
`getattr(checker, fun)(checker, self, node)`. -/
abbrev BoundHook := AState → M (AState × Option Ctx)

/-- A checker object: it has whichever of the four visit functions it
defines (`hasattr` probing). -/
structure Checker where
  visit_Module : Option (PyModule → BoundHook)
  visit_ClassDef : Option (PyNode → BoundHook)
  visit_FunctionDef : Option (PyNode → BoundHook)
  visit_Call : Option (PyNode → BoundHook)

/-- `self._checkers` may be None (so iterating it in `_visit_with_context`
raises TypeError). -/
def getCheckers (cks : Option (List Checker)) (s : AState) : M (List Checker) :=
  match cks with
  | none => .error (.typeError, s)
  | some l => .ok l

/-- The comprehension filter of `_visit_with_context`: the hooks of the
checkers that define `fun`, in checker-registration order, each bound to
the visited node. -/
def selectHooks {ν : Type} (cks : List Checker) (sel : Checker → Option (ν → BoundHook))
    (node : ν) : List BoundHook :=
  cks.filterMap fun c => (sel c).map fun h => h node

/-- `ctxs = [getattr(_, fun)(_, self, node) for _ in self._checkers if
hasattr(_, fun)]`: the hook calls run left to right while the list is
built. -/
def callHooks : List BoundHook → AState → M (AState × List (Option Ctx))
  | [], s => .ok (s, [])
  | h :: rest, s =>
    match h s with
    | .error e => .error e
    | .ok (s₁, ctx) =>
      match callHooks rest s₁ with
      | .error e => .error e
      | .ok (s₂, ctxs) => .ok (s₂, ctx :: ctxs)

/-- `for _ in ctxs: if _ and hasattr(_, "__enter__"): _.__enter__()` —
list order, i.e. checker-registration order. -/
def runEnters : List (Option Ctx) → AState → M AState
  | [], s => .ok s
  | none :: rest, s => runEnters rest s
  | some c :: rest, s =>
    match c.enter with
    | none => runEnters rest s
    | some f =>
      match f s with
      | .error e => .error e
      | .ok s₁ => runEnters rest s₁

/-- `for _ in ctxs: if _ and hasattr(_, "__exit__"): _.__exit__()` — the
SAME list order as the enters, not reversed. -/
def runExits : List (Option Ctx) → AState → M AState
  | [], s => .ok s
  | none :: rest, s => runExits rest s
  | some c :: rest, s =>
    match c.exit with
    | none => runExits rest s
    | some f =>
      match f s with
      | .error e => .error e
      | .ok s₁ => runExits rest s₁

/-- `self.peek.calls += 1` as done by checkers/function.py `visit_Call`:
AttributeError when no scope is open (`peek` is None). -/
def peekIncCalls (s : AState) : M (AState × Option Ctx) :=
  match s.stack with
  | [] => .error (.attributeError, s)
  | top :: rest => .ok ({ s with stack := top.incCalls :: rest }, none)

/-- checkers/function.py `visit_FunctionDef` context `__exit__`:
`report = analyzer.peek; report.checks.append(CheckReport(ERule.R1001,
value=function.responsibilities(report.calls, MAX_CALLS), goal=1,
extra={"calls": report.calls, "max": MAX_CALLS}))`. -/
def functionCheckerFunExit (s : AState) : M AState :=
  match s.stack with
  | [] => .error (.attributeError, s)
  | top :: rest =>
    match responsibilities (top.calls : Int) MAX_CALLS with
    | .error e => .error (e, s)
    | .ok v =>
      .ok { s with
        stack := top.addCheck
          ⟨ERule.R1001, v, 1, [("calls", (top.calls : ℚ)), ("max", (MAX_CALLS : ℚ))]⟩
          :: rest }

/-- checkers/function.py as a checker object: `visit_ClassDef` returns a
context whose enter and exit do nothing, `visit_FunctionDef` returns a
context whose exit appends the R1001 check, `visit_Call` increments the
innermost open scope's `calls` and returns None (no context). -/
def functionChecker : Checker where
  visit_Module := none
  visit_ClassDef := some fun _ => fun s =>
    .ok (s, some { enter := some fun s => .ok s, exit := some fun s => .ok s })
  visit_FunctionDef := some fun _ => fun s =>
    .ok (s, some { enter := some fun s => .ok s, exit := some functionCheckerFunExit })
  visit_Call := some fun _ => peekIncCalls

/-! ### The dispatcher

`_visit_with_context(node, fun)` is the sequence: call the matching hooks
(building `ctxs`), run the enters, `generic_visit` the node, run the
exits.  The four stages are the helper functions above; they are inlined
at each dispatch site below so that the recursion into children is
structural.

One representational note: Python appends a fresh ClassReport /
FunctionReport to the parent's list BEFORE pushing it, and later mutations
reach the parent's list through the alias.  A functional state cannot
alias, so here the completed child is attached to the parent when the
scope is popped; the resulting reports are identical for checkers that (as
the shipped ones do) only read and mutate the innermost open scope. -/

mutual

/-- `self.visit(child)` as `generic_visit` invokes it (no `checkers`
keyword): the `_is_root` branch of analyzer.py `visit`.  During an
ordinary traversal `_is_root` is False and this is a plain dispatch. -/
def visitChild (cks : Option (List Checker)) (n : PyNode) (s : AState) : M AState :=
  if s.isRoot then
    match dispatchNode none n { s with isRoot := false, report := some emptyRep } with
    | .error e => .error e
    | .ok s₁ => .ok { s₁ with isRoot := true }
  else
    dispatchNode cks n s
termination_by (sizeOf n, 1)

/-- `ast.NodeVisitor.visit` dispatch: `visit_ClassDef`, `visit_FunctionDef`
and `visit_Call` where defined, `generic_visit` for every other node
kind. -/
def dispatchNode (cks : Option (List Checker)) (n : PyNode) (s : AState) : M AState :=
  match n with
  | .classDef lineno body =>
    -- report = ClassReport(node.lineno); self.peek.classes.append(report)
    match s.stack with
    | [] => .error (.attributeError, s)
    | _ :: _ =>
      -- self._push(report)
      let s₁ := { s with stack := freshRep lineno :: s.stack }
      -- self._visit_with_context(node, "visit_ClassDef")
      match getCheckers cks s₁ with
      | .error e => .error e
      | .ok cksL =>
        match callHooks (selectHooks cksL (·.visit_ClassDef) (.classDef lineno body)) s₁ with
        | .error e => .error e
        | .ok (s₂, ctxs) =>
          match runEnters ctxs s₂ with
          | .error e => .error e
          | .ok s₃ =>
            match genericVisit cks body s₃ with
            | .error e => .error e
            | .ok s₄ =>
              match runExits ctxs s₄ with
              | .error e => .error e
              | .ok s₅ =>
                -- self.pop(); the completed child joins its parent here
                match s₅.stack with
                | [] => .error (.indexError, s₅)
                | top :: parent :: rest =>
                  .ok { s₅ with stack := parent.addClass top :: rest }
                | [_] => .ok { s₅ with stack := [] }
  | .functionDef lineno body =>
    -- report = FunctionReport(node.lineno); self.peek.functions.append(report)
    match s.stack with
    | [] => .error (.attributeError, s)
    | _ :: _ =>
      let s₁ := { s with stack := freshRep lineno :: s.stack }
      match getCheckers cks s₁ with
      | .error e => .error e
      | .ok cksL =>
        match callHooks (selectHooks cksL (·.visit_FunctionDef) (.functionDef lineno body)) s₁ with
        | .error e => .error e
        | .ok (s₂, ctxs) =>
          match runEnters ctxs s₂ with
          | .error e => .error e
          | .ok s₃ =>
            match genericVisit cks body s₃ with
            | .error e => .error e
            | .ok s₄ =>
              match runExits ctxs s₄ with
              | .error e => .error e
              | .ok s₅ =>
                match s₅.stack with
                | [] => .error (.indexError, s₅)
                | top :: parent :: rest =>
                  .ok { s₅ with stack := parent.addFunction top :: rest }
                | [_] => .ok { s₅ with stack := [] }
  | .call children =>
    -- visit_Call: no scope, just _visit_with_context(node, "visit_Call")
    match getCheckers cks s with
    | .error e => .error e
    | .ok cksL =>
      match callHooks (selectHooks cksL (·.visit_Call) (.call children)) s with
      | .error e => .error e
      | .ok (s₁, ctxs) =>
        match runEnters ctxs s₁ with
        | .error e => .error e
        | .ok s₂ =>
          match genericVisit cks children s₂ with
          | .error e => .error e
          | .ok s₃ => runExits ctxs s₃
  | .other children => genericVisit cks children s
termination_by (sizeOf n, 0)

/-- `generic_visit`: visit every child node in order. -/
def genericVisit (cks : Option (List Checker)) (ns : List PyNode) (s : AState) : M AState :=
  match ns with
  | [] => .ok s
  | n :: rest =>
    match visitChild cks n s with
    | .error e => .error e
    | .ok s₁ => genericVisit cks rest s₁
termination_by (sizeOf ns, 2)

end

/-- analyzer.py `visit_Module`: push `self._report`, run
`_visit_with_context(node, "visit_Module")`, pop.  The popped scope IS
`self._report` (they alias in Python), so the model stores the completed
scope back into `report`. -/
def dispatchModule (cks : Option (List Checker)) (m : PyModule) (s : AState) : M AState :=
  match s.report with
  | none => .error (.attributeError, s)
  | some r =>
    let s₁ := { s with stack := r :: s.stack }
    match getCheckers cks s₁ with
    | .error e => .error e
    | .ok cksL =>
      match callHooks (selectHooks cksL (·.visit_Module) m) s₁ with
      | .error e => .error e
      | .ok (s₂, ctxs) =>
        match runEnters ctxs s₂ with
        | .error e => .error e
        | .ok s₃ =>
          match genericVisit cks m.body s₃ with
          | .error e => .error e
          | .ok s₄ =>
            match runExits ctxs s₄ with
            | .error e => .error e
            | .ok s₅ =>
              match s₅.stack with
              | [] => .error (.indexError, s₅)
              | top :: rest => .ok { s₅ with stack := rest, report := some top }

/-- The analyzer object: its mutable state plus the `_checkers` attribute
(`none` both for an attribute that is still unset and for a stored Python
None — the two are only distinguishable by which exception a later read
raises, a difference no claim touches). -/
structure Analyzer where
  st : AState
  checkersAttr : Option (List Checker)

/-- `DefaultAnalyzer()` after `__init__`: `_stack = []` (Stack base),
`_is_root = True`; `_checkers` and `_report` not yet set. -/
def newAnalyzer : Analyzer :=
  { st := { stack := [], report := none, isRoot := true, trace := [] },
    checkersAttr := none }

/-- analyzer.py `visit(self, *args, checkers=None, **kwargs)` called on a
parsed tree root.  The root branch stores the checkers, makes a fresh
`ASTReport`, dispatches, restores `_is_root` and returns `self._report`;
the non-root branch dispatches with the STORED `_checkers` (the keyword is
ignored) and returns None. -/
def DefaultAnalyzer.visit (a : Analyzer) (checkersKw : Option (List Checker))
    (m : PyModule) : Except (PyErr × Analyzer) (Analyzer × Option Rep) :=
  if a.st.isRoot then
    let cks := checkersKw
    let s₀ := { a.st with isRoot := false, report := some emptyRep }
    match dispatchModule cks m s₀ with
    | .error (e, s') => .error (e, { st := s', checkersAttr := cks })
    | .ok s' => .ok ({ st := { s' with isRoot := true }, checkersAttr := cks }, s'.report)
  else
    match dispatchModule a.checkersAttr m a.st with
    | .error (e, s') => .error (e, { a with st := s' })
    | .ok s' => .ok ({ a with st := s' }, none)

/-- sachi.py `walk(tree, *, checkers=None)`:
`analyzer = DefaultAnalyzer(checkers); analyzer.visit(tree); return
analyzer.report`.  `DefaultAnalyzer.__init__(self)` accepts no argument
besides `self`, so the construction call, made with one positional
argument, raises TypeError at once; `constructAnalyzer` embeds that arity
check.  (Were construction to succeed, `visit` is invoked without the
`checkers` keyword, and `analyzer.report` reads an attribute that does not
exist — the field is `_report`.) -/
def constructAnalyzer (posArgs : Nat) : Except PyErr Analyzer :=
  if posArgs = 0 then .ok newAnalyzer else .error .typeError

def walk (tree : PyModule) (checkers : Option (List Checker)) : Except PyErr Rep :=
  match constructAnalyzer 1 with
  | .error e => .error e
  | .ok analyzer =>
    match DefaultAnalyzer.visit analyzer none tree with
    | .error (e, _) => .error e
    | .ok (analyzer', _) =>
      -- return analyzer.report: no such attribute on a DefaultAnalyzer
      .error .attributeError

/-! ### Expected report shapes (specification side)

`countCallsList ns` counts the call expressions lexically reachable from
the node list `ns` without entering a nested `classDef` or `functionDef`
scope — the spec's "call expressions that lexically occur in its own
body".  `classRepsList` / `funRepsList` give the class and function
reports the traversal with the shipped function checker is expected to
build: children collected in source order, `calls` counted scope-locally,
and every function report carrying exactly one R1001 check computed from
its own `calls`. -/

mutual

def countCallsNode : PyNode → Nat
  | .classDef _ _ => 0
  | .functionDef _ _ => 0
  | .call children => 1 + countCallsList children
  | .other children => countCallsList children

def countCallsList : List PyNode → Nat
  | [] => 0
  | n :: rest => countCallsNode n + countCallsList rest

end

/-- The CheckReport the function checker appends on FunctionDef exit to a
function report whose own body holds `k` call expressions. -/
def r1001Check (k : Nat) : CheckReport :=
  ⟨ERule.R1001, _clamp01 (1 - (k : ℚ) / (MAX_CALLS : ℚ)), 1,
    [("calls", (k : ℚ)), ("max", (MAX_CALLS : ℚ))]⟩

mutual

def classRepsNode : PyNode → List Rep
  | .classDef lineno body =>
    [⟨some lineno, classRepsList body, funRepsList body, [], countCallsList body⟩]
  | .functionDef _ _ => []
  | .call children => classRepsList children
  | .other children => classRepsList children

def classRepsList : List PyNode → List Rep
  | [] => []
  | n :: rest => classRepsNode n ++ classRepsList rest

def funRepsNode : PyNode → List Rep
  | .functionDef lineno body =>
    [⟨some lineno, classRepsList body, funRepsList body,
      [r1001Check (countCallsList body)], countCallsList body⟩]
  | .classDef _ _ => []
  | .call children => funRepsList children
  | .other children => funRepsList children

def funRepsList : List PyNode → List Rep
  | [] => []
  | n :: rest => funRepsNode n ++ funRepsList rest

end

/-- The report a completed traversal with the function checker is expected
to leave for module body `ns`. -/
def expectedModuleRep (ns : List PyNode) : Rep :=
  ⟨none, classRepsList ns, funRepsList ns, [], countCallsList ns⟩

/-- How a completed scope visit updates the enclosing open scope, function
checker configuration: children reports appended, scope-local calls
added. -/
def fcUpdN (top : Rep) (n : PyNode) : Rep :=
  ⟨top.lineno, top.classes ++ classRepsNode n, top.functions ++ funRepsNode n,
    top.checks, top.calls + countCallsNode n⟩

def fcUpdL (top : Rep) (ns : List PyNode) : Rep :=
  ⟨top.lineno, top.classes ++ classRepsList ns, top.functions ++ funRepsList ns,
    top.checks, top.calls + countCallsList ns⟩

/-! ### Instrumentation checkers

Checker hooks are arbitrary state transformers; the checkers below are the
concrete ones the theorems quantify with.  The probes write only `trace`,
making the dispatcher's invocation order observable; the raisers raise a
given exception from each of the three places a checker can raise (the
hook call itself, a context's enter, a context's exit). -/

/-- A logging context: `__enter__` appends `name.enter`, `__exit__`
appends `name.exit`. -/
def probeCtx (name : String) : Ctx where
  enter := some fun s => .ok { s with trace := s.trace ++ [name ++ ".enter"] }
  exit := some fun s => .ok { s with trace := s.trace ++ [name ++ ".exit"] }

/-- An instrumentation checker named `name`: its ClassDef hook logs
`name.classdef` and returns a logging context, its Call hook logs
`name.call` and returns no context. -/
def probe (name : String) : Checker where
  visit_Module := none
  visit_ClassDef := some fun _ => fun s =>
    .ok ({ s with trace := s.trace ++ [name ++ ".classdef"] }, some (probeCtx name))
  visit_FunctionDef := none
  visit_Call := some fun _ => fun s =>
    .ok ({ s with trace := s.trace ++ [name ++ ".call"] }, none)

/-- A checker whose FunctionDef hook itself raises `e`. -/
def raiseOnHook (e : PyErr) : Checker where
  visit_Module := none
  visit_ClassDef := none
  visit_FunctionDef := some fun _ => fun s => .error (e, s)
  visit_Call := none

/-- A checker whose FunctionDef hook returns a context whose `__enter__`
raises `e`. -/
def raiseOnEnter (e : PyErr) : Checker where
  visit_Module := none
  visit_ClassDef := none
  visit_FunctionDef := some fun _ => fun s =>
    .ok (s, some { enter := some fun s => .error (e, s), exit := none })
  visit_Call := none

/-- A checker whose FunctionDef hook returns a context whose `__exit__`
raises `e`. -/
def raiseOnExit (e : PyErr) : Checker where
  visit_Module := none
  visit_ClassDef := none
  visit_FunctionDef := some fun _ => fun s =>
    .ok (s, some { enter := none, exit := some fun s => .error (e, s) })
  visit_Call := none

/-! ### Behaviour predicates on checkers

The dispatcher runs arbitrary checker code, so statements about a
completed traversal constrain the hooks: a checker following the
documented protocol mutates report nodes, not the scope stack itself and
not the `_is_root` flag. -/

/-- The action never changes the number of open scopes when it returns
normally. -/
def ActKeepsDepth (f : AState → M AState) : Prop :=
  ∀ s s', f s = .ok s' → s'.stack.length = s.stack.length

def CtxKeepsDepth (ctx : Option Ctx) : Prop :=
  ∀ c, ctx = some c →
    (∀ f, c.enter = some f → ActKeepsDepth f) ∧
    (∀ f, c.exit = some f → ActKeepsDepth f)

def BHKeepsDepth (h : BoundHook) : Prop :=
  ∀ s s' ctx, h s = .ok (s', ctx) →
    s'.stack.length = s.stack.length ∧ CtxKeepsDepth ctx

def HookKeepsDepth {ν : Type} (h : ν → BoundHook) : Prop :=
  ∀ n, BHKeepsDepth (h n)

/-- Every hook of the checker, and every context such a hook returns,
leaves the scope stack's depth unchanged when it returns normally. -/
def CheckerKeepsDepth (c : Checker) : Prop :=
  (∀ h, c.visit_Module = some h → HookKeepsDepth h) ∧
  (∀ h, c.visit_ClassDef = some h → HookKeepsDepth h) ∧
  (∀ h, c.visit_FunctionDef = some h → HookKeepsDepth h) ∧
  (∀ h, c.visit_Call = some h → HookKeepsDepth h)

/-- The action keeps a mid-traversal `_is_root = False` false, whether it
returns or raises. -/
def ActKeepsNonRoot (f : AState → M AState) : Prop :=
  ∀ s, s.isRoot = false →
    (∀ s', f s = .ok s' → s'.isRoot = false) ∧
    (∀ e s', f s = .error (e, s') → s'.isRoot = false)

def CtxKeepsNonRoot (ctx : Option Ctx) : Prop :=
  ∀ c, ctx = some c →
    (∀ f, c.enter = some f → ActKeepsNonRoot f) ∧
    (∀ f, c.exit = some f → ActKeepsNonRoot f)

def BHKeepsNonRoot (h : BoundHook) : Prop :=
  ∀ s, s.isRoot = false →
    (∀ s' ctx, h s = .ok (s', ctx) → s'.isRoot = false ∧ CtxKeepsNonRoot ctx) ∧
    (∀ e s', h s = .error (e, s') → s'.isRoot = false)

def HookKeepsNonRoot {ν : Type} (h : ν → BoundHook) : Prop :=
  ∀ n, BHKeepsNonRoot (h n)

/-- Every hook of the checker, and every context such a hook returns,
never turns the `_is_root` flag back on mid-traversal. -/
def CheckerKeepsNonRoot (c : Checker) : Prop :=
  (∀ h, c.visit_Module = some h → HookKeepsNonRoot h) ∧
  (∀ h, c.visit_ClassDef = some h → HookKeepsNonRoot h) ∧
  (∀ h, c.visit_FunctionDef = some h → HookKeepsNonRoot h) ∧
  (∀ h, c.visit_Call = some h → HookKeepsNonRoot h)

/-- Result predicate: a normally returned state has the given scope
depth (a raised exception is unconstrained). -/
def DepthRes (d : Nat) : M AState → Prop
  | .ok s1 => s1.stack.length = d
  | .error _ => True

/-- Result predicate: both a normally returned state and the raise-time
state of an exception have `_is_root` still off. -/
def NonRootRes : M AState → Prop
  | .ok s1 => s1.isRoot = false
  | .error (_, s1) => s1.isRoot = false

/-! ## Claim theorems and supporting lemmas -/

/-- C1.  The claim states that `walk(tree, checkers)` constructs a
DefaultAnalyzer, runs the traversal and returns the completed root
ModuleReport, failing only with an error propagated from a checker or the
traversal.  The code instead fails on EVERY input: `walk` calls
`DefaultAnalyzer(checkers)` although `DefaultAnalyzer.__init__` accepts no
argument besides `self`, so a TypeError — neither a checker nor a
traversal error — is raised before any traversal begins, for every parsed
tree root and every checker list. -/
theorem walk_always_raises_TypeError (tree : PyModule)
    (checkers : Option (List Checker)) :
    walk tree checkers = .error PyErr.typeError := rfl

/-- C5 counterexample.  The claim says `pop()` on an empty scope stack
fails with an `EmptyStackError`; on the concrete empty stack the code
fails with Python's generic IndexError instead (no dedicated underflow
error exists in the code). -/
theorem pop_empty_not_EmptyStackError :
    (Stack.mk ([] : List Nat)).pop ≠ .error PyErr.emptyStackError := by
  intro h
  simp [Stack.pop] at h

/-- C5 amended.  `pop()` on an empty scope stack — in particular on any
stack that has seen equally many pushes and pops, hence has depth 0 —
fails, but with the built-in IndexError of `list.pop`, not with a
dedicated stack-underflow error. -/
theorem pop_empty_raises_IndexError {α} (s : Stack α) (h : s.depth = 0) :
    s.pop = .error PyErr.indexError := by
  have hnil : s._stack = [] := List.length_eq_zero.mp h
  simp [Stack.pop, hnil]

/-- C5 witness. -/
theorem pop_empty_raises_IndexError_witness :
    (Stack.mk ([] : List Nat)).depth = 0 ∧
    (Stack.mk ([] : List Nat)).pop = .error PyErr.indexError :=
  ⟨rfl, pop_empty_raises_IndexError (Stack.mk ([] : List Nat)) rfl⟩

/-- C6.  For `maxCalls > 0` the reference rule equals
`clamp(1 - callCount / maxCalls, 0, 1)`, gives 1.0 at `callCount = 0` and
0.0 at `callCount = maxCalls`.  (The rule is spec-modelled, see
`responsibilities`.) -/
theorem responsibilities_formula_and_endpoints (maxCalls callCount : Int)
    (h : 0 < maxCalls) :
    responsibilities callCount maxCalls =
      .ok (_clamp (1 - (callCount : ℚ) / (maxCalls : ℚ)) 0 1) ∧
    responsibilities 0 maxCalls = .ok 1 ∧
    responsibilities maxCalls maxCalls = .ok 0 := by
  have hne : maxCalls ≠ 0 := ne_of_gt h
  have hq : (maxCalls : ℚ) ≠ 0 := Int.cast_ne_zero.mpr hne
  refine ⟨by simp [responsibilities, hne, _clamp01], ?_, ?_⟩
  · simp [responsibilities, hne, _clamp01, _clamp]
  · simp [responsibilities, hne, _clamp01, _clamp, div_self hq]

/-- C6 witness at `maxCalls = 5`, `callCount = 3`. -/
theorem responsibilities_formula_and_endpoints_witness :
    (0 : Int) < 5 ∧
    (responsibilities 3 5 = .ok (_clamp (1 - ((3 : Int) : ℚ) / ((5 : Int) : ℚ)) 0 1) ∧
     responsibilities 0 5 = .ok 1 ∧
     responsibilities 5 5 = .ok 0) :=
  ⟨by decide, responsibilities_formula_and_endpoints 5 3 (by decide)⟩

/-- C7.  For fixed `maxCalls > 0` the reference rule is monotonically
non-increasing in `callCount`, and its value always lies in `[0, 1]` —
including when `callCount > maxCalls` (no upper constraint on `c'`
appears below). -/
theorem responsibilities_monotone_and_bounded (maxCalls c c' : Int)
    (hm : 0 < maxCalls) (hcc : c ≤ c') (v v' : ℚ)
    (hv : responsibilities c maxCalls = .ok v)
    (hv' : responsibilities c' maxCalls = .ok v') :
    v' ≤ v ∧ 0 ≤ v ∧ v ≤ 1 ∧ 0 ≤ v' ∧ v' ≤ 1 := by
  have hne : maxCalls ≠ 0 := ne_of_gt hm
  have hmq : (0 : ℚ) < (maxCalls : ℚ) := by exact_mod_cast hm
  simp [responsibilities, hne] at hv hv'
  have hbound : ∀ x : ℚ, 0 ≤ _clamp01 x ∧ _clamp01 x ≤ 1 := by
    intro x
    exact ⟨le_max_right _ _, max_le (min_le_right x 1) zero_le_one⟩
  have hmono : _clamp01 (1 - (c' : ℚ) / (maxCalls : ℚ)) ≤
      _clamp01 (1 - (c : ℚ) / (maxCalls : ℚ)) := by
    have hdiv : (c : ℚ) / (maxCalls : ℚ) ≤ (c' : ℚ) / (maxCalls : ℚ) := by
      have : (c : ℚ) ≤ (c' : ℚ) := by exact_mod_cast hcc
      gcongr
    exact max_le_max (min_le_min (by linarith) le_rfl) le_rfl
  rw [← hv, ← hv']
  exact ⟨hmono, (hbound _).1, (hbound _).2, (hbound _).1, (hbound _).2⟩

/-- C7 witness at `maxCalls = 5`, `c = 2 ≤ c' = 7` (note `c' > maxCalls`). -/
theorem responsibilities_monotone_and_bounded_witness :
    responsibilities 2 5 = .ok ((3 : ℚ) / 5) ∧
    responsibilities 7 5 = .ok 0 ∧
    ((0 : ℚ) ≤ (3 : ℚ) / 5 ∧ (3 : ℚ) / 5 ≤ 1 ∧ (0 : ℚ) ≤ 0 ∧ (0 : ℚ) ≤ 1) ∧
    ((0 : ℚ) ≤ (3 : ℚ) / 5) := by
  have h2 : responsibilities 2 5 = .ok ((3 : ℚ) / 5) := by
    simp [responsibilities, _clamp01, _clamp]
    norm_num
  have h7 : responsibilities 7 5 = .ok 0 := by
    simp [responsibilities, _clamp01, _clamp]
    norm_num
  have := responsibilities_monotone_and_bounded 5 2 7 (by decide) (by decide)
    ((3 : ℚ) / 5) 0 h2 h7
  exact ⟨h2, h7, ⟨this.2.1, this.2.2.1, this.2.2.2.1, this.2.2.2.2⟩, this.2.1⟩

/-- C9.  With exactly one open scope (`depth == 1`) the `parent` accessor
returns that sole open scope itself — index `depth - 2 == -1` wraps around
to the last element — and not the empty/None sentinel; on `depth == 0` it
attempts indexing as well (raising IndexError on the element-less stack)
rather than returning the None sentinel; and `at(index)` yields None
exactly when `index >= depth`. -/
theorem parent_wraparound_at_depth_one {α} (s : Stack α) (x : α)
    (h : s._stack = [x]) :
    s.parent = .ok (some x) ∧
    (∀ t : Stack α, t._stack = [] → t.parent = .error PyErr.indexError) ∧
    (∀ (t : Stack α) (i : Int), t.atIndex i = .ok none ↔ (t.depth : Int) ≤ i) := by
  refine ⟨?_, ?_, ?_⟩
  · simp [Stack.parent, Stack.atIndex, Stack.depth, pyGetItem, h, Except.map]
  · intro t ht
    simp [Stack.parent, Stack.atIndex, Stack.depth, pyGetItem, ht, Except.map]
  · intro t i
    by_cases hd : (t.depth : Int) > i
    · have : ¬ (t.depth : Int) ≤ i := by omega
      simp only [Stack.atIndex, if_pos hd]
      cases hpg : pyGetItem t._stack i <;> simp [Except.map, this]
    · have : (t.depth : Int) ≤ i := by omega
      simp [Stack.atIndex, hd, this]

/-- C9 witness. -/
theorem parent_wraparound_at_depth_one_witness :
    (Stack.mk [(3 : Nat)])._stack = [3] ∧
    ((Stack.mk [(3 : Nat)]).parent = .ok (some 3) ∧
     (∀ t : Stack Nat, t._stack = [] → t.parent = .error PyErr.indexError) ∧
     (∀ (t : Stack Nat) (i : Int), t.atIndex i = .ok none ↔ (t.depth : Int) ≤ i)) :=
  ⟨rfl, parent_wraparound_at_depth_one (Stack.mk [(3 : Nat)]) 3 rfl⟩

/-- Helper: `responsibilities` at the shipped `MAX_CALLS` never raises. -/
theorem responsibilities_MAX_CALLS (k : Nat) :
    responsibilities (k : Int) MAX_CALLS =
      .ok (_clamp01 (1 - (k : ℚ) / (MAX_CALLS : ℚ))) := by
  simp [responsibilities, MAX_CALLS]

/-- Helper: the hooks the singleton function-checker list registers for
each node kind. -/
theorem fc_select_Module (m : PyModule) :
    selectHooks [functionChecker] (fun c => c.visit_Module) m = [] := rfl

theorem fc_select_ClassDef (n : PyNode) :
    selectHooks [functionChecker] (fun c => c.visit_ClassDef) n =
      [fun s => .ok (s, some { enter := some fun s => .ok s, exit := some fun s => .ok s })] := rfl

theorem fc_select_FunctionDef (n : PyNode) :
    selectHooks [functionChecker] (fun c => c.visit_FunctionDef) n =
      [fun s => .ok (s, some { enter := some fun s => .ok s, exit := some functionCheckerFunExit })] := rfl

theorem fc_select_Call (n : PyNode) :
    selectHooks [functionChecker] (fun c => c.visit_Call) n = [peekIncCalls] := rfl

mutual

/-- Dispatching any single node under an open scope, with the shipped
function checker as the only registered checker, completes and updates
exactly the innermost open scope: child class/function reports appended in
source order, scope-local call expressions added to `calls`. -/
theorem fc_dispatchNode (n : PyNode) (top : Rep) (rest : List Rep)
    (rep : Option Rep) (tr : List String) :
    dispatchNode (some [functionChecker]) n ⟨top :: rest, rep, false, tr⟩ =
      .ok ⟨fcUpdN top n :: rest, rep, false, tr⟩ := by
  match n with
  | .classDef lineno body =>
    have hg := fc_genericVisit body (freshRep lineno) (top :: rest) rep tr
    simp only [dispatchNode, getCheckers, fc_select_ClassDef, callHooks,
      runEnters, runExits]
    rw [hg]
    simp [fcUpdN, fcUpdL, freshRep, Rep.addClass, Rep.lineno, Rep.classes,
      Rep.functions, Rep.checks, Rep.calls, classRepsNode, funRepsNode,
      countCallsNode]
  | .functionDef lineno body =>
    have hg := fc_genericVisit body (freshRep lineno) (top :: rest) rep tr
    simp only [dispatchNode, getCheckers, fc_select_FunctionDef, callHooks,
      runEnters, runExits]
    rw [hg]
    simp only [functionCheckerFunExit, fcUpdL, freshRep, Rep.lineno,
      Rep.classes, Rep.functions, Rep.checks, Rep.calls, Nat.zero_add,
      List.nil_append, responsibilities_MAX_CALLS]
    simp [fcUpdN, Rep.addFunction, Rep.addCheck, Rep.lineno, Rep.classes,
      Rep.functions, Rep.checks, Rep.calls, classRepsNode, funRepsNode,
      countCallsNode, r1001Check]
  | .call children =>
    have hg := fc_genericVisit children top.incCalls rest rep tr
    simp only [dispatchNode, getCheckers, fc_select_Call, callHooks,
      peekIncCalls, runEnters, runExits]
    rw [hg]
    simp [fcUpdN, fcUpdL, Rep.incCalls, Rep.lineno, Rep.classes,
      Rep.functions, Rep.checks, Rep.calls, classRepsNode, funRepsNode,
      countCallsNode, Nat.add_assoc]
  | .other children =>
    have hg := fc_genericVisit children top rest rep tr
    simp only [dispatchNode]
    rw [hg]
    simp [fcUpdN, fcUpdL, classRepsNode, funRepsNode, countCallsNode]
termination_by (sizeOf n, 0)

/-- Visiting a node list under an open scope, function checker
configuration: the cumulative update of `fc_dispatchNode`, node by
node. -/
theorem fc_genericVisit (ns : List PyNode) (top : Rep) (rest : List Rep)
    (rep : Option Rep) (tr : List String) :
    genericVisit (some [functionChecker]) ns ⟨top :: rest, rep, false, tr⟩ =
      .ok ⟨fcUpdL top ns :: rest, rep, false, tr⟩ := by
  match ns with
  | [] =>
    obtain ⟨tl, tc, tf, tch, tk⟩ := top
    simp [genericVisit, fcUpdL, Rep.lineno, Rep.classes, Rep.functions,
      Rep.checks, Rep.calls, classRepsList, funRepsList, countCallsList]
  | n :: ns' =>
    have hd := fc_dispatchNode n top rest rep tr
    have hg := fc_genericVisit ns' (fcUpdN top n) rest rep tr
    simp only [genericVisit, visitChild]
    rw [if_neg (by simp)]
    rw [hd]
    simp only []
    rw [hg]
    simp [fcUpdN, fcUpdL, Rep.lineno, Rep.classes, Rep.functions, Rep.checks,
      Rep.calls, classRepsList, funRepsList, countCallsList,
      List.append_assoc, Nat.add_assoc]
termination_by (sizeOf ns, 1)

end

/-- C2.  Running the analyzer properly (a fresh DefaultAnalyzer, `visit`
with the checkers keyword) over any module body with the shipped function
checker yields exactly `expectedModuleRep`: every FunctionReport in the
result carries `calls` equal to the number of call expressions lexically
in that function's own body — `countCallsList` counts through `call` and
`other` children but stops at any nested `classDef`/`functionDef`, so a
call inside a nested inner function is counted in the inner function's
report only, never in the enclosing one's. -/
theorem function_calls_counted_scope_locally (body : List PyNode) :
    DefaultAnalyzer.visit newAnalyzer (some [functionChecker]) ⟨body⟩ =
      .ok ({ st := { stack := [], report := some (expectedModuleRep body),
                     isRoot := true, trace := [] },
             checkersAttr := some [functionChecker] },
           some (expectedModuleRep body)) := by
  have hg := fc_genericVisit body emptyRep [] (some emptyRep) []
  simp only [DefaultAnalyzer.visit, newAnalyzer, dispatchModule, getCheckers,
    fc_select_Module, callHooks, runEnters, runExits]
  rw [if_pos trivial]
  rw [hg]
  simp [expectedModuleRep, fcUpdL, emptyRep, Rep.lineno, Rep.classes,
    Rep.functions, Rep.checks, Rep.calls]

/-- Helper: probes register no Module hook. -/
theorem probe_select_Module (names : List String) (m : PyModule) :
    selectHooks (names.map probe) (fun c => c.visit_Module) m = [] := by
  induction names with
  | nil => rfl
  | cons nm rest ih => simpa [selectHooks, probe] using ih

/-- Helper: the bound ClassDef hooks of a probe list, in registration
order. -/
theorem probe_select_ClassDef (names : List String) (n : PyNode) :
    selectHooks (names.map probe) (fun c => c.visit_ClassDef) n =
      names.map (fun nm => fun s =>
        .ok ({ s with trace := s.trace ++ [nm ++ ".classdef"] }, some (probeCtx nm))) := by
  induction names with
  | nil => rfl
  | cons nm rest ih => simpa [selectHooks, probe] using ih

/-- Helper: the bound Call hooks of a probe list, in registration order. -/
theorem probe_select_Call (names : List String) (n : PyNode) :
    selectHooks (names.map probe) (fun c => c.visit_Call) n =
      names.map (fun nm => fun s =>
        .ok ({ s with trace := s.trace ++ [nm ++ ".call"] }, (none : Option Ctx))) := by
  induction names with
  | nil => rfl
  | cons nm rest ih => simpa [selectHooks, probe] using ih

/-- Helper: hook calls run left to right in list order, each appending its
tag; the contexts come back in the same order. -/
theorem callHooks_probe (names : List String) (f : String → String)
    (g : String → Option Ctx) (s : AState) :
    callHooks (names.map (fun nm => fun s =>
        .ok ({ s with trace := s.trace ++ [f nm] }, g nm))) s =
      .ok ({ s with trace := s.trace ++ names.map f }, names.map g) := by
  induction names generalizing s with
  | nil => simp [callHooks]
  | cons nm rest ih => simp [callHooks, ih]

/-- Helper: the enter and exit actions a probe context exposes. -/
theorem probeCtx_enter (nm : String) :
    (probeCtx nm).enter =
      some fun s => .ok { s with trace := s.trace ++ [nm ++ ".enter"] } := rfl

theorem probeCtx_exit (nm : String) :
    (probeCtx nm).exit =
      some fun s => .ok { s with trace := s.trace ++ [nm ++ ".exit"] } := rfl

/-- Helper: the enters of a probe context list fire in list order. -/
theorem runEnters_probe (names : List String) (s : AState) :
    runEnters (names.map (fun nm => some (probeCtx nm))) s =
      .ok { s with trace := s.trace ++ names.map (fun nm => nm ++ ".enter") } := by
  induction names generalizing s with
  | nil => simp [runEnters]
  | cons nm rest ih =>
    simp only [List.map_cons, runEnters, probeCtx_enter]
    rw [ih]
    simp

/-- Helper: the exits of a probe context list fire in the SAME list order
(registration order, not reversed). -/
theorem runExits_probe (names : List String) (s : AState) :
    runExits (names.map (fun nm => some (probeCtx nm))) s =
      .ok { s with trace := s.trace ++ names.map (fun nm => nm ++ ".exit") } := by
  induction names generalizing s with
  | nil => simp [runExits]
  | cons nm rest ih =>
    simp only [List.map_cons, runExits, probeCtx_exit]
    rw [ih]
    simp

/-- Helper: a list of absent contexts enters as a no-op. -/
theorem runEnters_nones (names : List String) (s : AState) :
    runEnters (names.map (fun _ => (none : Option Ctx))) s = .ok s := by
  induction names with
  | nil => rfl
  | cons nm rest ih => simpa [runEnters] using ih

/-- Helper: a list of absent contexts exits as a no-op. -/
theorem runExits_nones (names : List String) (s : AState) :
    runExits (names.map (fun _ => (none : Option Ctx))) s = .ok s := by
  induction names with
  | nil => rfl
  | cons nm rest ih => simpa [runExits] using ih

/-- Helper: dispatching one call node under the probe list appends each
probe's `name.call` tag, in registration order. -/
theorem probe_dispatch_call (names : List String) (stk : List Rep)
    (rep : Option Rep) (tr : List String) :
    dispatchNode (some (names.map probe)) (.call []) ⟨stk, rep, false, tr⟩ =
      .ok ⟨stk, rep, false, tr ++ names.map (fun nm => nm ++ ".call")⟩ := by
  simp only [dispatchNode, getCheckers, probe_select_Call, callHooks_probe,
    genericVisit, runEnters_nones, runExits_nones]

/-- Helper: visiting `k` call children under the probe list appends `k`
blocks of call tags, one block (in registration order) per child. -/
theorem probe_generic_calls (names : List String) (k : Nat) (stk : List Rep)
    (rep : Option Rep) (tr : List String) :
    genericVisit (some (names.map probe)) (List.replicate k (.call []))
        ⟨stk, rep, false, tr⟩ =
      .ok ⟨stk, rep, false,
        tr ++ (List.replicate k (names.map (fun nm => nm ++ ".call"))).flatten⟩ := by
  induction k generalizing tr with
  | zero => simp [genericVisit, List.replicate]
  | succ k ih =>
    simp only [List.replicate, genericVisit, visitChild]
    rw [if_neg (by simp)]
    rw [probe_dispatch_call]
    simp only []
    rw [ih]
    simp [List.flatten]

/-- C3.  For an arbitrarily long ordered list of registered checkers (the
probes), dispatching a node kind for which they are all registered
(ClassDef, with `k` call-expression children as child observers) fires all
hook calls in registration order, then all enter actions in registration
order BEFORE any child is visited, then the children in order, then all
exit actions AFTER all children and in the same registration order — not
reversed.  The trace of the completed run is exactly those four blocks in
sequence. -/
theorem checker_hooks_fire_in_registration_order (names : List String)
    (lineno k : Nat) :
    DefaultAnalyzer.visit newAnalyzer (some (names.map probe))
        ⟨[.classDef lineno (List.replicate k (.call []))]⟩ =
      .ok ({ st := { stack := [],
                     report := some ⟨none, [⟨some lineno, [], [], [], 0⟩], [], [], 0⟩,
                     isRoot := true,
                     trace := names.map (fun nm => nm ++ ".classdef") ++
                       (names.map (fun nm => nm ++ ".enter") ++
                        ((List.replicate k (names.map (fun nm => nm ++ ".call"))).flatten ++
                         names.map (fun nm => nm ++ ".exit"))) },
             checkersAttr := some (names.map probe) },
           some ⟨none, [⟨some lineno, [], [], [], 0⟩], [], [], 0⟩) := by
  simp only [DefaultAnalyzer.visit, newAnalyzer, dispatchModule, getCheckers,
    probe_select_Module, callHooks, runEnters, runExits]
  rw [if_pos trivial]
  simp only [genericVisit, visitChild]
  rw [if_neg (by simp)]
  simp only [dispatchNode, getCheckers, probe_select_ClassDef, callHooks_probe,
    runEnters_probe]
  rw [probe_generic_calls]
  simp only [runExits_probe]
  simp [emptyRep, freshRep, Rep.addClass, Rep.lineno, Rep.classes,
    Rep.functions, Rep.checks, Rep.calls, List.append_assoc]

/-- Helper: hooks the raiser checkers register. -/
theorem raiseOnHook_select_Module (e : PyErr) (m : PyModule) :
    selectHooks [raiseOnHook e] (fun c => c.visit_Module) m = [] := rfl

theorem raiseOnHook_select_FunctionDef (e : PyErr) (n : PyNode) :
    selectHooks [raiseOnHook e] (fun c => c.visit_FunctionDef) n =
      [fun s => .error (e, s)] := rfl

theorem raiseOnEnter_select_Module (e : PyErr) (m : PyModule) :
    selectHooks [raiseOnEnter e] (fun c => c.visit_Module) m = [] := rfl

theorem raiseOnEnter_select_FunctionDef (e : PyErr) (n : PyNode) :
    selectHooks [raiseOnEnter e] (fun c => c.visit_FunctionDef) n =
      [fun s => .ok (s, some { enter := some fun s => .error (e, s), exit := none })] := rfl

theorem raiseOnExit_select_Module (e : PyErr) (m : PyModule) :
    selectHooks [raiseOnExit e] (fun c => c.visit_Module) m = [] := rfl

theorem raiseOnExit_select_FunctionDef (e : PyErr) (n : PyNode) :
    selectHooks [raiseOnExit e] (fun c => c.visit_FunctionDef) n =
      [fun s => .ok (s, some { enter := none, exit := some fun s => .error (e, s) })] := rfl

/-- C8.  An exception raised inside a checker hook — whether by the hook
call itself, by a context's enter action, or by a context's exit action —
propagates out of the whole top-level visit unmodified: for EVERY error
value `e` the result is `.error` carrying exactly `e`, so no report (and
in particular no partial report) is returned; the dispatcher catches
nothing.  The three conjuncts raise from the three possible places, under
a function definition nested in an arbitrary module. -/
theorem checker_error_propagates_unchanged (e : PyErr) (lineno : Nat)
    (body rest : List PyNode) :
    (DefaultAnalyzer.visit newAnalyzer (some [raiseOnHook e])
        ⟨.functionDef lineno body :: rest⟩ =
      .error (e, { st := ⟨[freshRep lineno, emptyRep], some emptyRep, false, []⟩,
                   checkersAttr := some [raiseOnHook e] })) ∧
    (DefaultAnalyzer.visit newAnalyzer (some [raiseOnEnter e])
        ⟨.functionDef lineno body :: rest⟩ =
      .error (e, { st := ⟨[freshRep lineno, emptyRep], some emptyRep, false, []⟩,
                   checkersAttr := some [raiseOnEnter e] })) ∧
    (DefaultAnalyzer.visit newAnalyzer (some [raiseOnExit e])
        ⟨.functionDef lineno [] :: rest⟩ =
      .error (e, { st := ⟨[freshRep lineno, emptyRep], some emptyRep, false, []⟩,
                   checkersAttr := some [raiseOnExit e] })) := by
  refine ⟨?_, ?_, ?_⟩
  · simp only [DefaultAnalyzer.visit, newAnalyzer, dispatchModule, getCheckers,
      raiseOnHook_select_Module, callHooks, runEnters, runExits]
    rw [if_pos trivial]
    simp only [genericVisit, visitChild]
    rw [if_neg (by simp)]
    simp only [dispatchNode, getCheckers, raiseOnHook_select_FunctionDef,
      callHooks]
  · simp only [DefaultAnalyzer.visit, newAnalyzer, dispatchModule, getCheckers,
      raiseOnEnter_select_Module, callHooks, runEnters, runExits]
    rw [if_pos trivial]
    simp only [genericVisit, visitChild]
    rw [if_neg (by simp)]
    simp only [dispatchNode, getCheckers, raiseOnEnter_select_FunctionDef,
      callHooks, runEnters]
  · simp only [DefaultAnalyzer.visit, newAnalyzer, dispatchModule, getCheckers,
      raiseOnExit_select_Module, callHooks, runEnters, runExits]
    rw [if_pos trivial]
    simp only [genericVisit, visitChild]
    rw [if_neg (by simp)]
    simp only [dispatchNode, getCheckers, raiseOnExit_select_FunctionDef,
      callHooks, runEnters, genericVisit, runExits]

/-- Helper: `getCheckers` succeeds only on the stored list itself. -/
theorem getCheckers_ok {cks : Option (List Checker)} {s : AState}
    {l : List Checker} (h : getCheckers cks s = .ok l) : cks = some l := by
  cases cks with
  | none => simp [getCheckers] at h
  | some a => simp [getCheckers] at h; rw [h]

/-- Helper: the hooks `selectHooks` picks from depth-keeping checkers are
depth-keeping. -/
theorem selectHooks_keepDepth {ν : Type} (cks : List Checker)
    (sel : Checker → Option (ν → BoundHook)) (node : ν) :
    (∀ c ∈ cks, ∀ hf, sel c = some hf → HookKeepsDepth hf) →
    ∀ b ∈ selectHooks cks sel node, BHKeepsDepth b := by
  induction cks with
  | nil => intro _; simp [selectHooks]
  | cons c rest ih =>
    intro hk b hb
    simp only [selectHooks, List.filterMap_cons] at hb
    split at hb
    · exact ih (fun c' hc' hf h' => hk c' (List.mem_cons_of_mem _ hc') hf h') b hb
    next b' heq =>
      obtain ⟨hf, hsel, hb'⟩ := Option.map_eq_some'.mp heq
      rcases List.mem_cons.mp hb with h1 | h2
      · rw [h1, ← hb']
        exact hk c (List.mem_cons_self _ _) hf hsel node
      · exact ih (fun c' hc' hf' h' => hk c' (List.mem_cons_of_mem _ hc') hf' h') b h2

/-- Helper: a run of depth-keeping hooks keeps the depth and returns
depth-keeping contexts. -/
theorem callHooks_keepDepth (hooks : List BoundHook) :
    (∀ b ∈ hooks, BHKeepsDepth b) →
    ∀ (s s' : AState) (ctxs : List (Option Ctx)),
      callHooks hooks s = .ok (s', ctxs) →
      s'.stack.length = s.stack.length ∧ ∀ c ∈ ctxs, CtxKeepsDepth c := by
  induction hooks with
  | nil =>
    intro _ s s' ctxs h
    simp only [callHooks, Except.ok.injEq, Prod.mk.injEq] at h
    rw [← h.1, ← h.2]
    simp
  | cons b rest ih =>
    intro hh s s' ctxs h
    simp only [callHooks] at h
    split at h
    · simp at h
    next s₁ ctx hb =>
      split at h
      · simp at h
      next s₂ ctxs₂ hrest =>
        simp only [Except.ok.injEq, Prod.mk.injEq] at h
        obtain ⟨hs, hc⟩ := h
        have hhead := hh b (List.mem_cons_self _ _) s s₁ ctx hb
        have htail := ih (fun b' hb' => hh b' (List.mem_cons_of_mem _ hb')) s₁ s₂ ctxs₂ hrest
        subst hs
        refine ⟨by omega, ?_⟩
        intro c hcmem
        rw [← hc] at hcmem
        rcases List.mem_cons.mp hcmem with h1 | h2
        · rw [h1]; exact hhead.2
        · exact htail.2 c h2

/-- Helper: running the enters of depth-keeping contexts keeps the
depth. -/
theorem runEnters_keepDepth (ctxs : List (Option Ctx)) :
    (∀ c ∈ ctxs, CtxKeepsDepth c) →
    ∀ (s s' : AState), runEnters ctxs s = .ok s' →
      s'.stack.length = s.stack.length := by
  induction ctxs with
  | nil =>
    intro _ s s' h
    simp only [runEnters, Except.ok.injEq] at h
    rw [← h]
  | cons c rest ih =>
    intro hc s s' h
    cases c with
    | none =>
      simp only [runEnters] at h
      exact ih (fun c' h' => hc c' (List.mem_cons_of_mem _ h')) s s' h
    | some cx =>
      simp only [runEnters] at h
      split at h
      · exact ih (fun c' h' => hc c' (List.mem_cons_of_mem _ h')) s s' h
      next f he =>
        split at h
        · simp at h
        next s₁ hf =>
          have h1 : s₁.stack.length = s.stack.length :=
            ((hc (some cx) (List.mem_cons_self _ _)) cx rfl).1 f he s s₁ hf
          have h2 := ih (fun c' h' => hc c' (List.mem_cons_of_mem _ h')) s₁ s' h
          omega

/-- Helper: running the exits of depth-keeping contexts keeps the
depth. -/
theorem runExits_keepDepth (ctxs : List (Option Ctx)) :
    (∀ c ∈ ctxs, CtxKeepsDepth c) →
    ∀ (s s' : AState), runExits ctxs s = .ok s' →
      s'.stack.length = s.stack.length := by
  induction ctxs with
  | nil =>
    intro _ s s' h
    simp only [runExits, Except.ok.injEq] at h
    rw [← h]
  | cons c rest ih =>
    intro hc s s' h
    cases c with
    | none =>
      simp only [runExits] at h
      exact ih (fun c' h' => hc c' (List.mem_cons_of_mem _ h')) s s' h
    | some cx =>
      simp only [runExits] at h
      split at h
      · exact ih (fun c' h' => hc c' (List.mem_cons_of_mem _ h')) s s' h
      next f he =>
        split at h
        · simp at h
        next s₁ hf =>
          have h1 : s₁.stack.length = s.stack.length :=
            ((hc (some cx) (List.mem_cons_self _ _)) cx rfl).2 f he s s₁ hf
          have h2 := ih (fun c' h' => hc c' (List.mem_cons_of_mem _ h')) s₁ s' h
          omega

mutual

/-- Helper: each scope-opening dispatch pushes exactly one report and pops
exactly one, so (for checkers whose hooks keep the depth) a completed
dispatch leaves the scope stack at its entry depth. -/
theorem dispatchNode_keepDepth (cks : Option (List Checker)) (n : PyNode)
    (hk : ∀ l, cks = some l → ∀ c ∈ l, CheckerKeepsDepth c) (s : AState) :
    DepthRes s.stack.length (dispatchNode cks n s) := by
  match n with
  | .classDef lineno body =>
    simp only [dispatchNode]
    split
    · exact trivial
    next a as hs =>
      split
      · exact trivial
      next cksL hg =>
        split
        · exact trivial
        next s₂ ctxs hch =>
          split
          · exact trivial
          next s₃ hre =>
            split
            · exact trivial
            next s₄ hgv =>
              split
              · exact trivial
              next s₅ hrx =>
                have hkk := hk cksL (getCheckers_ok hg)
                have hbs := selectHooks_keepDepth cksL
                  (fun c => c.visit_ClassDef) (PyNode.classDef lineno body)
                  (fun c hc hf hsel => (hkk c hc).2.1 hf hsel)
                have h1 := callHooks_keepDepth _ hbs _ _ _ hch
                have h2 := runEnters_keepDepth _ h1.2 _ _ hre
                have h3 : s₄.stack.length = s₃.stack.length := by
                  have := genericVisit_keepDepth cks body hk s₃
                  rw [hgv] at this
                  exact this
                have h4 := runExits_keepDepth _ h1.2 _ _ hrx
                have e1 : s₂.stack.length = s.stack.length + 1 := by
                  simpa using h1.1
                have e5 : s.stack.length = as.length + 1 := by rw [hs]; simp
                split
                · exact trivial
                next top parent rest' hstk =>
                  have e6 : s₅.stack.length = rest'.length + 2 := by
                    rw [hstk]; simp
                  simp only [DepthRes, List.length_cons]
                  omega
                next x hstk =>
                  have e6 : s₅.stack.length = 1 := by rw [hstk]; simp
                  simp only [DepthRes, List.length_nil]
                  omega
  | .functionDef lineno body =>
    simp only [dispatchNode]
    split
    · exact trivial
    next a as hs =>
      split
      · exact trivial
      next cksL hg =>
        split
        · exact trivial
        next s₂ ctxs hch =>
          split
          · exact trivial
          next s₃ hre =>
            split
            · exact trivial
            next s₄ hgv =>
              split
              · exact trivial
              next s₅ hrx =>
                have hkk := hk cksL (getCheckers_ok hg)
                have hbs := selectHooks_keepDepth cksL
                  (fun c => c.visit_FunctionDef) (PyNode.functionDef lineno body)
                  (fun c hc hf hsel => (hkk c hc).2.2.1 hf hsel)
                have h1 := callHooks_keepDepth _ hbs _ _ _ hch
                have h2 := runEnters_keepDepth _ h1.2 _ _ hre
                have h3 : s₄.stack.length = s₃.stack.length := by
                  have := genericVisit_keepDepth cks body hk s₃
                  rw [hgv] at this
                  exact this
                have h4 := runExits_keepDepth _ h1.2 _ _ hrx
                have e1 : s₂.stack.length = s.stack.length + 1 := by
                  simpa using h1.1
                have e5 : s.stack.length = as.length + 1 := by rw [hs]; simp
                split
                · exact trivial
                next top parent rest' hstk =>
                  have e6 : s₅.stack.length = rest'.length + 2 := by
                    rw [hstk]; simp
                  simp only [DepthRes, List.length_cons]
                  omega
                next x hstk =>
                  have e6 : s₅.stack.length = 1 := by rw [hstk]; simp
                  simp only [DepthRes, List.length_nil]
                  omega
  | .call children =>
    simp only [dispatchNode]
    split
    · exact trivial
    next cksL hg =>
      split
      · exact trivial
      next s₁ ctxs hch =>
        split
        · exact trivial
        next s₂ hre =>
          split
          · exact trivial
          next s₃ hgv =>
            have hkk := hk cksL (getCheckers_ok hg)
            have hbs := selectHooks_keepDepth cksL
              (fun c => c.visit_Call) (PyNode.call children)
              (fun c hc hf hsel => (hkk c hc).2.2.2 hf hsel)
            have h1 := callHooks_keepDepth _ hbs _ _ _ hch
            have h2 := runEnters_keepDepth _ h1.2 _ _ hre
            have h3 : s₃.stack.length = s₂.stack.length := by
              have := genericVisit_keepDepth cks children hk s₂
              rw [hgv] at this
              exact this
            cases hrx : runExits ctxs s₃ with
            | error e => exact trivial
            | ok s₄ =>
              have h4 := runExits_keepDepth _ h1.2 _ _ hrx
              simp only [DepthRes]
              omega
  | .other children =>
    simp only [dispatchNode]
    exact genericVisit_keepDepth cks children hk s
termination_by (sizeOf n, 0)

/-- Helper: `self.visit(child)` keeps the depth. -/
theorem visitChild_keepDepth (cks : Option (List Checker)) (n : PyNode)
    (hk : ∀ l, cks = some l → ∀ c ∈ l, CheckerKeepsDepth c) (s : AState) :
    DepthRes s.stack.length (visitChild cks n s) := by
  simp only [visitChild]
  split
  · split
    · exact trivial
    next s₁ hd =>
      have h1 : s₁.stack.length = s.stack.length := by
        have := dispatchNode_keepDepth none n
          (fun l hl => absurd hl (by simp))
          { s with isRoot := false, report := some emptyRep }
        rw [hd] at this
        simpa using this
      simp only [DepthRes]
      simpa using h1
  · exact dispatchNode_keepDepth cks n hk s
termination_by (sizeOf n, 1)

/-- Helper: `generic_visit` keeps the depth. -/
theorem genericVisit_keepDepth (cks : Option (List Checker)) (ns : List PyNode)
    (hk : ∀ l, cks = some l → ∀ c ∈ l, CheckerKeepsDepth c) (s : AState) :
    DepthRes s.stack.length (genericVisit cks ns s) := by
  match ns with
  | [] =>
    simp only [genericVisit]
    exact rfl
  | n :: rest =>
    simp only [genericVisit]
    split
    · exact trivial
    next s₁ hv =>
      have h1 : s₁.stack.length = s.stack.length := by
        have := visitChild_keepDepth cks n hk s
        rw [hv] at this
        exact this
      have h2 := genericVisit_keepDepth cks rest hk s₁
      rw [← h1]
      exact h2
termination_by (sizeOf ns, 2)

end

/-- Helper: the Module dispatch also pushes exactly once and pops exactly
once. -/
theorem dispatchModule_keepDepth (cks : Option (List Checker)) (m : PyModule)
    (hk : ∀ l, cks = some l → ∀ c ∈ l, CheckerKeepsDepth c) (s : AState) :
    DepthRes s.stack.length (dispatchModule cks m s) := by
  simp only [dispatchModule]
  split
  · exact trivial
  next r hr =>
    split
    · exact trivial
    next cksL hg =>
      split
      · exact trivial
      next s₂ ctxs hch =>
        split
        · exact trivial
        next s₃ hre =>
          split
          · exact trivial
          next s₄ hgv =>
            split
            · exact trivial
            next s₅ hrx =>
              have hkk := hk cksL (getCheckers_ok hg)
              have hbs := selectHooks_keepDepth cksL
                (fun c => c.visit_Module) m
                (fun c hc hf hsel => (hkk c hc).1 hf hsel)
              have h1 := callHooks_keepDepth _ hbs _ _ _ hch
              have h2 := runEnters_keepDepth _ h1.2 _ _ hre
              have h3 : s₄.stack.length = s₃.stack.length := by
                have := genericVisit_keepDepth cks m.body hk s₃
                rw [hgv] at this
                exact this
              have h4 := runExits_keepDepth _ h1.2 _ _ hrx
              have e1 : s₂.stack.length = s.stack.length + 1 := by
                simpa using h1.1
              split
              · exact trivial
              next top rest hstk =>
                have e6 : s₅.stack.length = rest.length + 1 := by
                  rw [hstk]; simp
                simp only [DepthRes]
                omega

/-- C4.  For every input tree and every checker list whose hooks keep the
scope depth (the documented protocol: checkers mutate report nodes, not
the stack), the scope stack has depth exactly 0 immediately before a
top-level visit on a fresh analyzer — and again immediately after the
visit completes: each scope-opening dispatch pushed exactly one report
node and popped exactly one. -/
theorem scope_stack_balanced_around_walk (cks : List Checker) (m : PyModule)
    (hk : ∀ c ∈ cks, CheckerKeepsDepth c) (a' : Analyzer) (r : Option Rep)
    (h : DefaultAnalyzer.visit newAnalyzer (some cks) m = .ok (a', r)) :
    newAnalyzer.st.stack.length = 0 ∧ a'.st.stack.length = 0 := by
  refine ⟨rfl, ?_⟩
  simp only [DefaultAnalyzer.visit, newAnalyzer] at h
  rw [if_pos trivial] at h
  split at h
  · simp at h
  next s' hd =>
    have hdep := dispatchModule_keepDepth (some cks) m
      (fun l hl => Option.some.inj hl ▸ hk)
      { stack := [], report := some emptyRep, isRoot := false, trace := [] }
    rw [hd] at hdep
    simp only [DepthRes] at hdep
    simp only [Except.ok.injEq, Prod.mk.injEq] at h
    rw [← h.1]
    simpa using hdep

/-- C4 witness: the empty checker list on the empty module. -/
theorem scope_stack_balanced_around_walk_witness :
    (∀ c ∈ ([] : List Checker), CheckerKeepsDepth c) ∧
    DefaultAnalyzer.visit newAnalyzer (some []) ⟨[]⟩ =
      .ok ({ st := { stack := [], report := some emptyRep, isRoot := true,
                     trace := [] },
             checkersAttr := some [] }, some emptyRep) ∧
    (newAnalyzer.st.stack.length = 0 ∧
     ({ st := { stack := [], report := some emptyRep, isRoot := true,
                trace := [] },
        checkersAttr := some [] } : Analyzer).st.stack.length = 0) := by
  have hvisit : DefaultAnalyzer.visit newAnalyzer (some []) ⟨[]⟩ =
      .ok ({ st := { stack := [], report := some emptyRep, isRoot := true,
                     trace := [] },
             checkersAttr := some [] }, some emptyRep) := by
    simp only [DefaultAnalyzer.visit, newAnalyzer, dispatchModule, getCheckers,
      selectHooks, List.filterMap_nil, callHooks, runEnters, runExits,
      genericVisit]
    rw [if_pos trivial]
  exact ⟨by simp, hvisit,
    scope_stack_balanced_around_walk [] ⟨[]⟩ (by simp) _ _ hvisit⟩

/-- Helper: the hooks `selectHooks` picks from non-root-keeping checkers
are non-root-keeping. -/
theorem selectHooks_keepNonRoot {ν : Type} (cks : List Checker)
    (sel : Checker → Option (ν → BoundHook)) (node : ν) :
    (∀ c ∈ cks, ∀ hf, sel c = some hf → HookKeepsNonRoot hf) →
    ∀ b ∈ selectHooks cks sel node, BHKeepsNonRoot b := by
  induction cks with
  | nil => intro _; simp [selectHooks]
  | cons c rest ih =>
    intro hk b hb
    simp only [selectHooks, List.filterMap_cons] at hb
    split at hb
    · exact ih (fun c' hc' hf h' => hk c' (List.mem_cons_of_mem _ hc') hf h') b hb
    next b' heq =>
      obtain ⟨hf, hsel, hb'⟩ := Option.map_eq_some'.mp heq
      rcases List.mem_cons.mp hb with h1 | h2
      · rw [h1, ← hb']
        exact hk c (List.mem_cons_self _ _) hf hsel node
      · exact ih (fun c' hc' hf' h' => hk c' (List.mem_cons_of_mem _ hc') hf' h') b h2

/-- Helper: a run of non-root-keeping hooks keeps `_is_root` off, also at
an exception, and returns non-root-keeping contexts. -/
theorem callHooks_keepNonRoot (hooks : List BoundHook) :
    (∀ b ∈ hooks, BHKeepsNonRoot b) →
    ∀ s : AState, s.isRoot = false →
      (∀ s' ctxs, callHooks hooks s = .ok (s', ctxs) →
         s'.isRoot = false ∧ ∀ c ∈ ctxs, CtxKeepsNonRoot c) ∧
      (∀ e s', callHooks hooks s = .error (e, s') → s'.isRoot = false) := by
  induction hooks with
  | nil =>
    intro _ s hs
    constructor
    · intro s' ctxs h
      simp only [callHooks, Except.ok.injEq, Prod.mk.injEq] at h
      rw [← h.1, ← h.2]
      simpa using hs
    · intro e s' h
      simp [callHooks] at h
  | cons b rest ih =>
    intro hh s hs
    have hb := hh b (List.mem_cons_self _ _) s hs
    have ihr := ih (fun b' hb' => hh b' (List.mem_cons_of_mem _ hb'))
    constructor
    · intro s' ctxs h
      simp only [callHooks] at h
      split at h
      · simp at h
      next s₁ ctx h1eq =>
        have hok := hb.1 s₁ ctx h1eq
        split at h
        · simp at h
        next s₂ ctxs₂ h2eq =>
          simp only [Except.ok.injEq, Prod.mk.injEq] at h
          have hrest := (ihr s₁ hok.1).1 s₂ ctxs₂ h2eq
          refine ⟨by rw [← h.1]; exact hrest.1, ?_⟩
          intro c hcmem
          rw [← h.2] at hcmem
          rcases List.mem_cons.mp hcmem with h1 | h2
          · rw [h1]; exact hok.2
          · exact hrest.2 c h2
    · intro e s' h
      simp only [callHooks] at h
      split at h
      next e₀ h1eq =>
        have he := Except.error.inj h
        rw [he] at h1eq
        exact hb.2 e s' h1eq
      next s₁ ctx h1eq =>
        have hok := hb.1 s₁ ctx h1eq
        split at h
        next e₀ h2eq =>
          have he := Except.error.inj h
          rw [he] at h2eq
          exact (ihr s₁ hok.1).2 e s' h2eq
        next s₂ ctxs₂ h2eq => simp at h

/-- Helper: running the enters of non-root-keeping contexts keeps
`_is_root` off, also at an exception. -/
theorem runEnters_keepNonRoot (ctxs : List (Option Ctx)) :
    (∀ c ∈ ctxs, CtxKeepsNonRoot c) →
    ∀ s : AState, s.isRoot = false →
      (∀ s', runEnters ctxs s = .ok s' → s'.isRoot = false) ∧
      (∀ e s', runEnters ctxs s = .error (e, s') → s'.isRoot = false) := by
  induction ctxs with
  | nil =>
    intro _ s hs
    constructor
    · intro s' h
      simp only [runEnters, Except.ok.injEq] at h
      rw [← h]; exact hs
    · intro e s' h
      simp [runEnters] at h
  | cons c rest ih =>
    intro hc s hs
    have ihr := ih (fun c' h' => hc c' (List.mem_cons_of_mem _ h'))
    cases c with
    | none =>
      constructor
      · intro s' h
        simp only [runEnters] at h
        exact (ihr s hs).1 s' h
      · intro e s' h
        simp only [runEnters] at h
        exact (ihr s hs).2 e s' h
    | some cx =>
      have hcx := (hc (some cx) (List.mem_cons_self _ _)) cx rfl
      constructor
      · intro s' h
        simp only [runEnters] at h
        split at h
        · exact (ihr s hs).1 s' h
        next f he =>
          split at h
          · simp at h
          next s₁ hf =>
            have h1 : s₁.isRoot = false := ((hcx.1 f he) s hs).1 s₁ hf
            exact (ihr s₁ h1).1 s' h
      · intro e s' h
        simp only [runEnters] at h
        split at h
        · exact (ihr s hs).2 e s' h
        next f he =>
          split at h
          next e₀ hf =>
            have he2 := Except.error.inj h
            rw [he2] at hf
            exact ((hcx.1 f he) s hs).2 e s' hf
          next s₁ hf =>
            have h1 : s₁.isRoot = false := ((hcx.1 f he) s hs).1 s₁ hf
            exact (ihr s₁ h1).2 e s' h

/-- Helper: running the exits of non-root-keeping contexts keeps
`_is_root` off, also at an exception. -/
theorem runExits_keepNonRoot (ctxs : List (Option Ctx)) :
    (∀ c ∈ ctxs, CtxKeepsNonRoot c) →
    ∀ s : AState, s.isRoot = false →
      (∀ s', runExits ctxs s = .ok s' → s'.isRoot = false) ∧
      (∀ e s', runExits ctxs s = .error (e, s') → s'.isRoot = false) := by
  induction ctxs with
  | nil =>
    intro _ s hs
    constructor
    · intro s' h
      simp only [runExits, Except.ok.injEq] at h
      rw [← h]; exact hs
    · intro e s' h
      simp [runExits] at h
  | cons c rest ih =>
    intro hc s hs
    have ihr := ih (fun c' h' => hc c' (List.mem_cons_of_mem _ h'))
    cases c with
    | none =>
      constructor
      · intro s' h
        simp only [runExits] at h
        exact (ihr s hs).1 s' h
      · intro e s' h
        simp only [runExits] at h
        exact (ihr s hs).2 e s' h
    | some cx =>
      have hcx := (hc (some cx) (List.mem_cons_self _ _)) cx rfl
      constructor
      · intro s' h
        simp only [runExits] at h
        split at h
        · exact (ihr s hs).1 s' h
        next f he =>
          split at h
          · simp at h
          next s₁ hf =>
            have h1 : s₁.isRoot = false := ((hcx.2 f he) s hs).1 s₁ hf
            exact (ihr s₁ h1).1 s' h
      · intro e s' h
        simp only [runExits] at h
        split at h
        · exact (ihr s hs).2 e s' h
        next f he =>
          split at h
          next e₀ hf =>
            have he2 := Except.error.inj h
            rw [he2] at hf
            exact ((hcx.2 f he) s hs).2 e s' hf
          next s₁ hf =>
            have h1 : s₁.isRoot = false := ((hcx.2 f he) s hs).1 s₁ hf
            exact (ihr s₁ h1).2 e s' h

/-- Helper: a failing `getCheckers` raises with the state it was given. -/
theorem getCheckers_error {cks : Option (List Checker)} {s : AState}
    {e : PyErr × AState} (h : getCheckers cks s = .error e) : e.2 = s := by
  cases cks with
  | none =>
    simp only [getCheckers, Except.error.injEq] at h
    rw [← h]
  | some l => simp [getCheckers] at h

mutual

/-- Helper: with checkers that never turn `_is_root` back on, a dispatch
started with `_is_root` off leaves it off — whether it returns or
raises. -/
theorem dispatchNode_keepNonRoot (cks : Option (List Checker)) (n : PyNode)
    (hk : ∀ l, cks = some l → ∀ c ∈ l, CheckerKeepsNonRoot c) (s : AState)
    (hs : s.isRoot = false) : NonRootRes (dispatchNode cks n s) := by
  match n with
  | .classDef lineno body =>
    simp only [dispatchNode]
    split
    · simpa [NonRootRes] using hs
    next a as hstk =>
      split
      next e hg =>
        obtain ⟨e₁, sx⟩ := e
        simp only [NonRootRes]
        have h2 := getCheckers_error hg
        simp only at h2
        rw [h2]
        simpa using hs
      next cksL hg =>
        have hkk := hk cksL (getCheckers_ok hg)
        have hbs := selectHooks_keepNonRoot cksL
          (fun c => c.visit_ClassDef) (PyNode.classDef lineno body)
          (fun c hc hf hsel => (hkk c hc).2.1 hf hsel)
        have hs1 : ({ s with stack := freshRep lineno :: s.stack } : AState).isRoot = false := hs
        split
        next e hch =>
          obtain ⟨e₁, sx⟩ := e
          simp only [NonRootRes]
          exact (callHooks_keepNonRoot _ hbs _ hs1).2 e₁ sx hch
        next s₂ ctxs hch =>
          have h2 := (callHooks_keepNonRoot _ hbs _ hs1).1 s₂ ctxs hch
          split
          next e hre =>
            obtain ⟨e₁, sx⟩ := e
            simp only [NonRootRes]
            exact (runEnters_keepNonRoot _ h2.2 _ h2.1).2 e₁ sx hre
          next s₃ hre =>
            have h3 := (runEnters_keepNonRoot _ h2.2 _ h2.1).1 s₃ hre
            split
            next e hgv =>
              have := genericVisit_keepNonRoot cks body hk s₃ h3
              rw [hgv] at this
              exact this
            next s₄ hgv =>
              have h4 : s₄.isRoot = false := by
                have := genericVisit_keepNonRoot cks body hk s₃ h3
                rw [hgv] at this
                exact this
              split
              next e hrx =>
                obtain ⟨e₁, sx⟩ := e
                simp only [NonRootRes]
                exact (runExits_keepNonRoot _ h2.2 _ h4).2 e₁ sx hrx
              next s₅ hrx =>
                have h5 := (runExits_keepNonRoot _ h2.2 _ h4).1 s₅ hrx
                split
                · simpa [NonRootRes] using h5
                · simpa [NonRootRes] using h5
                · simpa [NonRootRes] using h5
  | .functionDef lineno body =>
    simp only [dispatchNode]
    split
    · simpa [NonRootRes] using hs
    next a as hstk =>
      split
      next e hg =>
        obtain ⟨e₁, sx⟩ := e
        simp only [NonRootRes]
        have h2 := getCheckers_error hg
        simp only at h2
        rw [h2]
        simpa using hs
      next cksL hg =>
        have hkk := hk cksL (getCheckers_ok hg)
        have hbs := selectHooks_keepNonRoot cksL
          (fun c => c.visit_FunctionDef) (PyNode.functionDef lineno body)
          (fun c hc hf hsel => (hkk c hc).2.2.1 hf hsel)
        have hs1 : ({ s with stack := freshRep lineno :: s.stack } : AState).isRoot = false := hs
        split
        next e hch =>
          obtain ⟨e₁, sx⟩ := e
          simp only [NonRootRes]
          exact (callHooks_keepNonRoot _ hbs _ hs1).2 e₁ sx hch
        next s₂ ctxs hch =>
          have h2 := (callHooks_keepNonRoot _ hbs _ hs1).1 s₂ ctxs hch
          split
          next e hre =>
            obtain ⟨e₁, sx⟩ := e
            simp only [NonRootRes]
            exact (runEnters_keepNonRoot _ h2.2 _ h2.1).2 e₁ sx hre
          next s₃ hre =>
            have h3 := (runEnters_keepNonRoot _ h2.2 _ h2.1).1 s₃ hre
            split
            next e hgv =>
              have := genericVisit_keepNonRoot cks body hk s₃ h3
              rw [hgv] at this
              exact this
            next s₄ hgv =>
              have h4 : s₄.isRoot = false := by
                have := genericVisit_keepNonRoot cks body hk s₃ h3
                rw [hgv] at this
                exact this
              split
              next e hrx =>
                obtain ⟨e₁, sx⟩ := e
                simp only [NonRootRes]
                exact (runExits_keepNonRoot _ h2.2 _ h4).2 e₁ sx hrx
              next s₅ hrx =>
                have h5 := (runExits_keepNonRoot _ h2.2 _ h4).1 s₅ hrx
                split
                · simpa [NonRootRes] using h5
                · simpa [NonRootRes] using h5
                · simpa [NonRootRes] using h5
  | .call children =>
    simp only [dispatchNode]
    split
    next e hg =>
      obtain ⟨e₁, sx⟩ := e
      simp only [NonRootRes]
      have h2 := getCheckers_error hg
      simp only at h2
      rw [h2]
      exact hs
    next cksL hg =>
      have hkk := hk cksL (getCheckers_ok hg)
      have hbs := selectHooks_keepNonRoot cksL
        (fun c => c.visit_Call) (PyNode.call children)
        (fun c hc hf hsel => (hkk c hc).2.2.2 hf hsel)
      split
      next e hch =>
        obtain ⟨e₁, sx⟩ := e
        simp only [NonRootRes]
        exact (callHooks_keepNonRoot _ hbs _ hs).2 e₁ sx hch
      next s₁ ctxs hch =>
        have h2 := (callHooks_keepNonRoot _ hbs _ hs).1 s₁ ctxs hch
        split
        next e hre =>
          obtain ⟨e₁, sx⟩ := e
          simp only [NonRootRes]
          exact (runEnters_keepNonRoot _ h2.2 _ h2.1).2 e₁ sx hre
        next s₂ hre =>
          have h3 := (runEnters_keepNonRoot _ h2.2 _ h2.1).1 s₂ hre
          split
          next e hgv =>
            have := genericVisit_keepNonRoot cks children hk s₂ h3
            rw [hgv] at this
            exact this
          next s₃ hgv =>
            have h4 : s₃.isRoot = false := by
              have := genericVisit_keepNonRoot cks children hk s₂ h3
              rw [hgv] at this
              exact this
            cases hrx : runExits ctxs s₃ with
            | error e =>
              obtain ⟨e₁, sx⟩ := e
              simp only [NonRootRes]
              exact (runExits_keepNonRoot _ h2.2 _ h4).2 e₁ sx hrx
            | ok s₄ =>
              simp only [NonRootRes]
              exact (runExits_keepNonRoot _ h2.2 _ h4).1 s₄ hrx
  | .other children =>
    simp only [dispatchNode]
    exact genericVisit_keepNonRoot cks children hk s hs
termination_by (sizeOf n, 0)

/-- Helper: `self.visit(child)` keeps `_is_root` off. -/
theorem visitChild_keepNonRoot (cks : Option (List Checker)) (n : PyNode)
    (hk : ∀ l, cks = some l → ∀ c ∈ l, CheckerKeepsNonRoot c) (s : AState)
    (hs : s.isRoot = false) : NonRootRes (visitChild cks n s) := by
  simp only [visitChild, hs]
  simp only [Bool.false_eq_true, if_false]
  exact dispatchNode_keepNonRoot cks n hk s hs
termination_by (sizeOf n, 1)

/-- Helper: `generic_visit` keeps `_is_root` off. -/
theorem genericVisit_keepNonRoot (cks : Option (List Checker))
    (ns : List PyNode)
    (hk : ∀ l, cks = some l → ∀ c ∈ l, CheckerKeepsNonRoot c) (s : AState)
    (hs : s.isRoot = false) : NonRootRes (genericVisit cks ns s) := by
  match ns with
  | [] =>
    simp only [genericVisit]
    simpa [NonRootRes] using hs
  | n :: rest =>
    simp only [genericVisit]
    split
    next e hv =>
      have := visitChild_keepNonRoot cks n hk s hs
      rw [hv] at this
      exact this
    next s₁ hv =>
      have h1 : s₁.isRoot = false := by
        have := visitChild_keepNonRoot cks n hk s hs
        rw [hv] at this
        exact this
      exact genericVisit_keepNonRoot cks rest hk s₁ h1
termination_by (sizeOf ns, 2)

end

/-- Helper: the Module dispatch keeps `_is_root` off, also at an
exception. -/
theorem dispatchModule_keepNonRoot (cks : Option (List Checker))
    (m : PyModule)
    (hk : ∀ l, cks = some l → ∀ c ∈ l, CheckerKeepsNonRoot c) (s : AState)
    (hs : s.isRoot = false) : NonRootRes (dispatchModule cks m s) := by
  simp only [dispatchModule]
  split
  · simpa [NonRootRes] using hs
  next r hr =>
    have hkk' := hk
    have hs1 : ({ s with stack := r :: s.stack } : AState).isRoot = false := hs
    split
    next e hg =>
      obtain ⟨e₁, sx⟩ := e
      simp only [NonRootRes]
      have h2 := getCheckers_error hg
      simp only at h2
      rw [h2]
      simpa using hs
    next cksL hg =>
      have hkk := hk cksL (getCheckers_ok hg)
      have hbs := selectHooks_keepNonRoot cksL (fun c => c.visit_Module) m
        (fun c hc hf hsel => (hkk c hc).1 hf hsel)
      split
      next e hch =>
        obtain ⟨e₁, sx⟩ := e
        simp only [NonRootRes]
        exact (callHooks_keepNonRoot _ hbs _ hs1).2 e₁ sx hch
      next s₂ ctxs hch =>
        have h2 := (callHooks_keepNonRoot _ hbs _ hs1).1 s₂ ctxs hch
        split
        next e hre =>
          obtain ⟨e₁, sx⟩ := e
          simp only [NonRootRes]
          exact (runEnters_keepNonRoot _ h2.2 _ h2.1).2 e₁ sx hre
        next s₃ hre =>
          have h3 := (runEnters_keepNonRoot _ h2.2 _ h2.1).1 s₃ hre
          split
          next e hgv =>
            have := genericVisit_keepNonRoot cks m.body hk s₃ h3
            rw [hgv] at this
            exact this
          next s₄ hgv =>
            have h4 : s₄.isRoot = false := by
              have := genericVisit_keepNonRoot cks m.body hk s₃ h3
              rw [hgv] at this
              exact this
            split
            next e hrx =>
              obtain ⟨e₁, sx⟩ := e
              simp only [NonRootRes]
              exact (runExits_keepNonRoot _ h2.2 _ h4).2 e₁ sx hrx
            next s₅ hrx =>
              have h5 := (runExits_keepNonRoot _ h2.2 _ h4).1 s₅ hrx
              split
              · simpa [NonRootRes] using h5
              · simpa [NonRootRes] using h5

/-- C10.  If an exception propagates out of a top-level visit (checkers
following the protocol never turn `_is_root` back on themselves), the
analyzer is left with `_is_root` still False, so EVERY subsequent
top-level `visit` call on that same instance takes the nested-dispatch
branch and returns None instead of a fresh report — whatever tree or
checkers keyword it is given; and only a visit that completes normally
restores the idle state `_is_root = True`. -/
theorem failed_visit_leaves_analyzer_stuck (cks : List Checker)
    (m : PyModule) (a : Analyzer) (ha : a.st.isRoot = true)
    (hk : ∀ c ∈ cks, CheckerKeepsNonRoot c) :
    (∀ e a', DefaultAnalyzer.visit a (some cks) m = .error (e, a') →
       a'.st.isRoot = false ∧
       ∀ (cks2 : Option (List Checker)) (m2 : PyModule) (a'' : Analyzer)
         (r : Option Rep),
         DefaultAnalyzer.visit a' cks2 m2 = .ok (a'', r) → r = none) ∧
    (∀ a'' r, DefaultAnalyzer.visit a (some cks) m = .ok (a'', r) →
       a''.st.isRoot = true) := by
  constructor
  · intro e a' h
    simp only [DefaultAnalyzer.visit, ha] at h
    rw [if_pos trivial] at h
    split at h
    next e₀ s' hd =>
      simp only [Except.error.injEq, Prod.mk.injEq] at h
      have hroot : s'.isRoot = false := by
        have := dispatchModule_keepNonRoot (some cks) m
          (fun l hl => Option.some.inj hl ▸ hk)
          { a.st with isRoot := false, report := some emptyRep } rfl
        rw [hd] at this
        exact this
      have ha' : a' = { st := s', checkersAttr := some cks } := by
        rw [← h.2]
      constructor
      · rw [ha']
        exact hroot
      · intro cks2 m2 a'' r h2
        have ha'root : a'.st.isRoot = false := by rw [ha']; exact hroot
        simp only [DefaultAnalyzer.visit, ha'root, Bool.false_eq_true,
          if_false] at h2
        split at h2
        · simp at h2
        next s'' hd2 =>
          simp only [Except.ok.injEq, Prod.mk.injEq] at h2
          rw [← h2.2]
    next s' hd => simp at h
  · intro a'' r h
    simp only [DefaultAnalyzer.visit, ha] at h
    rw [if_pos trivial] at h
    split at h
    · simp at h
    next s' hd =>
      simp only [Except.ok.injEq, Prod.mk.injEq] at h
      rw [← h.1]

/-- C10 witness: a hook-raising checker on a one-function module jams a
fresh analyzer. -/
theorem failed_visit_leaves_analyzer_stuck_witness :
    newAnalyzer.st.isRoot = true ∧
    (({ st := ⟨[freshRep 1, emptyRep], some emptyRep, false, []⟩,
        checkersAttr := some [raiseOnHook (PyErr.checkerError "boom")] } :
          Analyzer).st.isRoot = false ∧
     ∀ (cks2 : Option (List Checker)) (m2 : PyModule) (a'' : Analyzer)
       (r : Option Rep),
       DefaultAnalyzer.visit
           { st := ⟨[freshRep 1, emptyRep], some emptyRep, false, []⟩,
             checkersAttr := some [raiseOnHook (PyErr.checkerError "boom")] }
           cks2 m2 = .ok (a'', r) → r = none) := by
  have herr : DefaultAnalyzer.visit newAnalyzer
      (some [raiseOnHook (PyErr.checkerError "boom")])
      ⟨[.functionDef 1 []]⟩ =
      .error (PyErr.checkerError "boom",
        { st := ⟨[freshRep 1, emptyRep], some emptyRep, false, []⟩,
          checkersAttr := some [raiseOnHook (PyErr.checkerError "boom")] }) := by
    simp only [DefaultAnalyzer.visit, newAnalyzer, dispatchModule, getCheckers,
      raiseOnHook_select_Module, callHooks, runEnters, runExits]
    rw [if_pos trivial]
    simp only [genericVisit, visitChild]
    rw [if_neg (by simp)]
    simp only [dispatchNode, getCheckers, raiseOnHook_select_FunctionDef,
      callHooks]
  have hkk : ∀ c ∈ [raiseOnHook (PyErr.checkerError "boom")],
      CheckerKeepsNonRoot c := by
    intro c hc
    simp only [List.mem_singleton] at hc
    subst hc
    refine ⟨?_, ?_, ?_, ?_⟩
    · intro hf habs; simp [raiseOnHook] at habs
    · intro hf habs; simp [raiseOnHook] at habs
    · intro hf hsome
      simp only [raiseOnHook, Option.some.injEq] at hsome
      subst hsome
      intro n s hs
      constructor
      · intro s' ctx habs
        simp at habs
      · intro e' s' herr2
        simp only [Except.error.injEq, Prod.mk.injEq] at herr2
        rw [← herr2.2]
        exact hs
    · intro hf habs; simp [raiseOnHook] at habs
  exact ⟨rfl,
    (failed_visit_leaves_analyzer_stuck
      [raiseOnHook (PyErr.checkerError "boom")] ⟨[.functionDef 1 []]⟩
      newAnalyzer rfl hkk).1 (PyErr.checkerError "boom") _ herr⟩
